import Mathlib

/-!
Verification development for the frappe/mail mail-flow engine.

Each definition below is a shallow embedding of a function of the
repository, translated from the Python source:
  * `update_status`, `validate_recipients`, `_add_recipient`,
    `validate_custom_headers`, `transfer_now`, `transfer_mails_iteration`
    embed `mail/mail/doctype/outgoing_mail/outgoing_mail.py`;
  * `undelivered_update`, `delivered_update` embed the per-recipient
    updates of `get_outgoing_mails_status` in the same file;
  * `process_incoming_mail` embeds
    `mail/mail/doctype/incoming_mail/incoming_mail.py`;
  * `get_raw_incoming_mails`, `validate_max_sync_limit`,
    `update_mail_sync_history`, `pull` embed `mail/api/inbound.py`;
  * `track_open` embeds `mail/api/track.py`.
Timestamps are modelled as natural numbers, database tables as lists of
rows, and `frappe.throw` as the `Except.error` constructor.
-/

namespace FrappeMail

/-- A row of the `Mail Recipient` child table of `Outgoing Mail`. -/
structure MailRecipient where
  type : String
  email : String
  display_name : String := ""
  status : String := ""
  retries : Nat := 0
  action_at : Nat := 0
  action_after : Int := 0
  deriving Repr, DecidableEq

/-- The counting loop of `OutgoingMail.update_status`: one pass over the
recipients incrementing `sent_count` when `status == "Sent"` and otherwise
`deferred_count` when `status == "Deferred"`. -/
def count_statuses : List MailRecipient → Nat × Nat
  | [] => (0, 0)
  | r :: rs =>
    let counts := count_statuses rs
    if r.status = "Sent" then (counts.1 + 1, counts.2)
    else if r.status = "Deferred" then (counts.1, counts.2 + 1)
    else counts

/-- `OutgoingMail.update_status`: when no explicit status is passed, the
mail-level status is derived from the recipient statuses; an explicit
status is taken verbatim. -/
def update_status (status : Option String) (recipients : List MailRecipient) : String :=
  match status with
  | some s => s
  | none =>
    if (count_statuses recipients).1 = recipients.length then "Sent"
    else if (count_statuses recipients).1 > 0 then "Partially Sent"
    else if (count_statuses recipients).2 = recipients.length then "Deferred"
    else "Bounced"

theorem count_statuses_fst (rs : List MailRecipient) :
    (count_statuses rs).1 = rs.countP (fun r => r.status == "Sent") := by
  induction rs with
  | nil => rfl
  | cons r rs ih =>
    simp only [count_statuses, List.countP_cons]
    by_cases h1 : r.status = "Sent"
    · simp [h1, ih]
    · by_cases h2 : r.status = "Deferred" <;> simp [h1, h2, ih]

theorem count_statuses_snd (rs : List MailRecipient) :
    (count_statuses rs).2
      = rs.countP (fun r => !(r.status == "Sent") && r.status == "Deferred") := by
  induction rs with
  | nil => rfl
  | cons r rs ih =>
    simp only [count_statuses, List.countP_cons]
    by_cases h1 : r.status = "Sent"
    · simp [h1, ih]
    · by_cases h2 : r.status = "Deferred" <;> simp [h1, h2, ih]

/-- Per-recipient body of `OutgoingMail.validate_recipients`: each email is
stripped and lowercased, rejected when the address validator disagrees with
it, and rejected when the `(type, email)` pair was already seen. -/
def check_recipients (valid_email : String → Bool) (seen : List (String × String)) :
    List MailRecipient → Except String Unit
  | [] => .ok ()
  | r :: rest =>
    let email := r.email.trim.toLower
    if !(valid_email email) then .error ("Invalid recipient " ++ email ++ ".")
    else if seen.contains (r.type, email) then
      .error ("Duplicate recipient " ++ email ++ " of type " ++ r.type ++ ".")
    else check_recipients valid_email ((r.type, email) :: seen) rest

/-- `OutgoingMail.validate_recipients`: throws when the recipient count
exceeds `max_recipients`, then runs the per-recipient loop. -/
def validate_recipients (max_recipients : Nat) (valid_email : String → Bool)
    (recipients : List MailRecipient) : Except String Unit :=
  if recipients.length > max_recipients then
    .error "Recipient limit exceeded."
  else check_recipients valid_email [] recipients

/-- `OutgoingMail._add_recipient`: a falsy (empty) argument appends no rows;
otherwise one row is appended per address, failing when `parseaddr` yields
no email part. -/
def _add_recipient (parseaddr : String → String × String) (type : String)
    (rcpts : List String) (recipients : List MailRecipient) :
    Except String (List MailRecipient) :=
  match rcpts with
  | [] => .ok recipients
  | rcpt :: rest =>
    let parsed := parseaddr rcpt
    if parsed.2 = "" then .error ("Invalid format for recipient " ++ rcpt ++ ".")
    else _add_recipient parseaddr type rest
      (recipients ++ [{ type := type, email := parsed.2, display_name := parsed.1 }])

theorem count_fst_eq_length_iff (rs : List MailRecipient) :
    (count_statuses rs).1 = rs.length ↔ ∀ r ∈ rs, r.status = "Sent" := by
  rw [count_statuses_fst]
  rw [List.countP_eq_length]
  constructor
  · intro hall r hr
    simpa using hall r hr
  · intro hall r hr
    simp [hall r hr]

theorem count_fst_pos_iff (rs : List MailRecipient) :
    0 < (count_statuses rs).1 ↔ ∃ r ∈ rs, r.status = "Sent" := by
  rw [count_statuses_fst, List.countP_pos_iff]
  constructor
  · rintro ⟨r, hr, hs⟩
    exact ⟨r, hr, by simpa using hs⟩
  · rintro ⟨r, hr, hs⟩
    exact ⟨r, hr, by simp [hs]⟩

/-- C1: for a submitted mail with a non-empty recipients list, the status
recomputed by `OutgoingMail.update_status` is `Sent` when every recipient is
`Sent`, `Partially Sent` when some but not all are `Sent`, `Deferred` when all
are `Deferred`, and `Bounced` otherwise; in particular a mail-level `Sent`
implies every recipient is `Sent`. -/
theorem update_status_derivation (rs : List MailRecipient) (h : rs ≠ []) :
    ((∀ r ∈ rs, r.status = "Sent") → update_status none rs = "Sent")
    ∧ ((∃ r ∈ rs, r.status = "Sent") → (¬ ∀ r ∈ rs, r.status = "Sent") →
        update_status none rs = "Partially Sent")
    ∧ ((∀ r ∈ rs, r.status = "Deferred") → update_status none rs = "Deferred")
    ∧ ((¬ ∃ r ∈ rs, r.status = "Sent") → (¬ ∀ r ∈ rs, r.status = "Deferred") →
        update_status none rs = "Bounced")
    ∧ (update_status none rs = "Sent" → ∀ r ∈ rs, r.status = "Sent") := by
  have hlen : 0 < rs.length := List.length_pos.mpr h
  refine ⟨?_, ?_, ?_, ?_, ?_⟩
  · intro hall
    have hc := (count_fst_eq_length_iff rs).mpr hall
    simp [update_status, hc]
  · intro hex hnall
    have hpos : 0 < (count_statuses rs).1 := (count_fst_pos_iff rs).mpr hex
    have hne : (count_statuses rs).1 ≠ rs.length := fun hc =>
      hnall ((count_fst_eq_length_iff rs).mp hc)
    simp [update_status, hne, hpos]
  · intro hall
    have h1 : (count_statuses rs).1 = 0 := by
      rw [count_statuses_fst, List.countP_eq_zero]
      intro r hr
      simp [hall r hr]
    have h2 : (count_statuses rs).2 = rs.length := by
      rw [count_statuses_snd, List.countP_eq_length]
      intro r hr
      simp [hall r hr]
    simp [update_status, h1, h2, hlen.ne]
  · intro hnex hnall
    have h1 : (count_statuses rs).1 = 0 := by
      rw [count_statuses_fst, List.countP_eq_zero]
      intro r hr hsent
      exact hnex ⟨r, hr, by simpa using hsent⟩
    have h2 : (count_statuses rs).2 ≠ rs.length := by
      rw [count_statuses_snd]
      intro hc
      apply hnall
      intro r hr
      have hp := List.countP_eq_length.mp hc r hr
      simp at hp
      exact hp.2
    simp [update_status, h1, h2, hlen.ne]
  · intro hs
    by_cases hc : (count_statuses rs).1 = rs.length
    · exact (count_fst_eq_length_iff rs).mp hc
    · exfalso
      simp only [update_status, if_neg hc] at hs
      by_cases h2 : (count_statuses rs).1 > 0
      · rw [if_pos h2] at hs
        exact absurd hs (by decide)
      · rw [if_neg h2] at hs
        by_cases h3 : (count_statuses rs).2 = rs.length
        · rw [if_pos h3] at hs
          exact absurd hs (by decide)
        · rw [if_neg h3] at hs
          exact absurd hs (by decide)

/-- Witness for C1 at a concrete one-recipient mail whose recipient is
`Sent`. -/
theorem update_status_derivation_witness :
    update_status none [{ type := "To", email := "a@b.test", status := "Sent" }] = "Sent" :=
  (update_status_derivation [{ type := "To", email := "a@b.test", status := "Sent" }]
      (by simp)).1
    (by
      intro r hr
      rw [List.mem_singleton] at hr
      rw [hr])

/-- C10: a submitted mail with an empty recipients list derives mail-level
status `Sent` (the zero `Sent` count equals the zero recipient count); such a
mail is constructible since `validate_recipients` only bounds the count from
above and `_add_recipient` appends nothing for an empty argument. -/
theorem empty_recipients_reported_sent (max_recipients : Nat)
    (valid_email : String → Bool) (parseaddr : String → String × String)
    (t : String) (rs : List MailRecipient) :
    update_status none [] = "Sent"
    ∧ validate_recipients max_recipients valid_email [] = .ok ()
    ∧ _add_recipient parseaddr t [] rs = .ok rs := by
  refine ⟨rfl, ?_, rfl⟩
  simp [validate_recipients, check_recipients]

/-- The per-recipient update of the `undelivered` handler inside
`get_outgoing_mails_status`: every recipient whose email occurs in the
hook's `rcpt_to` addresses is set to `Deferred` (hook `deferred`) or
`Bounced` (hook `bounce`) together with the hook's retries and action
times; other recipients are untouched. -/
def undelivered_update (hook : String) (rcpt_to : List String) (retries : Nat)
    (action_at : Nat) (transferred_at : Nat) (recipients : List MailRecipient) :
    List MailRecipient :=
  let status := if hook = "deferred" then "Deferred" else "Bounced"
  recipients.map fun r =>
    if rcpt_to.contains r.email then
      { r with
        status := status
        retries := retries
        action_at := action_at
        action_after := (action_at : Int) - (transferred_at : Int) }
    else r

/-- The per-recipient update of the `delivered` handler inside
`get_outgoing_mails_status`: every recipient whose email occurs in the
hook's `ok_recips` addresses is set to `Sent` with the hook's retries and
action times; other recipients are untouched. -/
def delivered_update (ok_recips : List String) (retries : Nat) (action_at : Nat)
    (transferred_at : Nat) (recipients : List MailRecipient) :
    List MailRecipient :=
  recipients.map fun r =>
    if ok_recips.contains r.email then
      { r with
        status := "Sent"
        retries := retries
        action_at := action_at
        action_after := (action_at : Int) - (transferred_at : Int) }
    else r

/-- Counterexample to C3: a recipient already in status `Sent` that is named
by a later `deferred` hook is moved back to `Deferred` — the reconciler has
no forward-only guard. -/
theorem reconciler_moves_sent_backward :
    (undelivered_update "deferred" ["a@b.test"] 1 10 5
        [{ type := "To", email := "a@b.test", status := "Sent" }]).map
      MailRecipient.status = ["Deferred"] := by
  rfl

/-- C3 (amended): the reconciler overwrites recipient status
unconditionally: an `undelivered` hook sets every matched recipient to
`Deferred`/`Bounced` and a `delivered` hook sets every matched recipient to
`Sent`, in both cases regardless of the recipient's previous status;
unmatched recipients keep their previous status. -/
theorem reconciler_overwrites_unconditionally (hook : String)
    (rcpt_to ok_recips : List String) (retries action_at transferred_at : Nat)
    (rs : List MailRecipient) (i : Nat) (hi : i < rs.length) :
    ((undelivered_update hook rcpt_to retries action_at transferred_at rs).get
        ⟨i, by simpa [undelivered_update] using hi⟩).status
      = (if rcpt_to.contains rs[i].email then
          (if hook = "deferred" then "Deferred" else "Bounced")
        else rs[i].status)
    ∧ ((delivered_update ok_recips retries action_at transferred_at rs).get
        ⟨i, by simpa [delivered_update] using hi⟩).status
      = (if ok_recips.contains rs[i].email then "Sent" else rs[i].status) := by
  constructor
  · simp only [undelivered_update, List.get_eq_getElem, List.getElem_map]
    by_cases hc : rs[i].email ∈ rcpt_to <;> simp [hc]
  · simp only [delivered_update, List.get_eq_getElem, List.getElem_map]
    by_cases hc : rs[i].email ∈ ok_recips <;> simp [hc]

/-- Witness for the amended C3 at a concrete mail: a `Sent` recipient matched
by a `deferred` hook ends `Deferred`, and a `Deferred` recipient matched by a
`delivered` hook ends `Sent`. -/
theorem reconciler_overwrites_unconditionally_witness :
    ((undelivered_update "deferred" ["a@b.test"] 1 10 5
        [{ type := "To", email := "a@b.test", status := "Sent" }]).get
        ⟨0, by simp [undelivered_update]⟩).status
      = (if ["a@b.test"].contains
            ([{ type := "To", email := "a@b.test", status := "Sent" }] :
              List MailRecipient)[0].email then
          (if "deferred" = "deferred" then "Deferred" else "Bounced")
        else ([{ type := "To", email := "a@b.test", status := "Sent" }] :
              List MailRecipient)[0].status) :=
  (reconciler_overwrites_unconditionally "deferred" ["a@b.test"] ["a@b.test"] 1 10 5
      [{ type := "To", email := "a@b.test", status := "Sent" }] 0 (by decide)).1

/-- A row of the `Mail Custom Header` child table of `Outgoing Mail`. -/
structure CustomHeader where
  key : String
  value : String := ""
  deriving Repr, DecidableEq

/-- `str.upper()` over the characters of a string. -/
def upper_str (s : String) : String := ⟨s.data.map Char.toUpper⟩

/-- `str.startswith(p)` over the characters of a string. -/
def starts_with (s p : String) : Bool := p.data.isPrefixOf s.data

/-- Key normalisation in `OutgoingMail.validate_custom_headers`: a key whose
upper-case form does not start with `X-` is silently renamed to `X-<key>`. -/
def normalize_key (key : String) : String :=
  if !(starts_with (upper_str key) "X-") then "X-" ++ key else key

/-- The per-header loop of `OutgoingMail.validate_custom_headers`: after
normalisation, a key whose upper-case form starts with `X-FM-` is rejected,
as is a key equal to an already-seen key. -/
def check_headers (seen : List String) : List CustomHeader → Except String (List CustomHeader)
  | [] => .ok []
  | h :: rest =>
    let key := normalize_key h.key
    if starts_with (upper_str key) "X-FM-" then
      .error ("Custom header " ++ key ++ " is not allowed.")
    else if seen.contains key then
      .error ("Duplicate custom header " ++ key ++ ".")
    else
      match check_headers (key :: seen) rest with
      | .ok out => .ok ({ h with key := key } :: out)
      | .error e => .error e

/-- `OutgoingMail.validate_custom_headers`: nothing is checked for an empty
header list; otherwise the count is bounded by `max_headers` and the
per-header loop runs over the normalised keys. -/
def validate_custom_headers (max_headers : Nat) (headers : List CustomHeader) :
    Except String (List CustomHeader) :=
  if headers.isEmpty then .ok []
  else if headers.length > max_headers then
    .error "Custom Headers limit exceeded."
  else check_headers [] headers

theorem starts_with_upper_x_append (k : String) :
    starts_with (upper_str ("X-" ++ k)) "X-" = true := by
  unfold starts_with
  have hdata : (upper_str ("X-" ++ k)).data = 'X' :: '-' :: k.data.map Char.toUpper := by
    simp [upper_str, String.data_append]
  rw [hdata]
  simp [List.isPrefixOf]

theorem normalize_key_starts_x (k : String) :
    starts_with (upper_str (normalize_key k)) "X-" = true := by
  by_cases hx : starts_with (upper_str k) "X-" = true
  · simp [normalize_key, hx]
  · have hx2 : starts_with (upper_str k) "X-" = false := by simpa using hx
    simp [normalize_key, hx2, starts_with_upper_x_append]

theorem check_headers_ok_spec (hs : List CustomHeader) :
    ∀ seen l, check_headers seen hs = .ok l →
      l.map CustomHeader.key = hs.map (fun h => normalize_key h.key)
      ∧ (∀ h2 ∈ l, starts_with (upper_str h2.key) "X-FM-" = false)
      ∧ (l.map CustomHeader.key).Nodup
      ∧ (∀ k ∈ l.map CustomHeader.key, seen.contains k = false) := by
  induction hs with
  | nil =>
    intro seen l h
    simp only [check_headers] at h
    injection h with h
    subst h
    simp
  | cons hd tl ih =>
    intro seen l h
    simp only [check_headers] at h
    by_cases hfm : starts_with (upper_str (normalize_key hd.key)) "X-FM-" = true
    · simp [hfm] at h
    · rw [if_neg (by simpa using hfm)] at h
      by_cases hdup : normalize_key hd.key ∈ seen
      · simp [hdup] at h
      · rw [if_neg (by simpa using hdup)] at h
        cases hrec : check_headers (normalize_key hd.key :: seen) tl with
        | error e => rw [hrec] at h; simp at h
        | ok out =>
          rw [hrec] at h
          injection h with h
          subst h
          obtain ⟨ihmap, ihfm, ihnd, ihseen⟩ := ih (normalize_key hd.key :: seen) out hrec
          refine ⟨?_, ?_, ?_, ?_⟩
          · simp [ihmap]
          · intro h2 hh2
            rcases List.mem_cons.mp hh2 with h2eq | h2tl
            · subst h2eq
              simpa using hfm
            · exact ihfm h2 h2tl
          · rw [List.map_cons, List.nodup_cons]
            refine ⟨?_, ihnd⟩
            intro hmem
            have hcontra := ihseen _ hmem
            simp [List.contains_cons] at hcontra
          · intro k hk
            rw [List.map_cons, List.mem_cons] at hk
            rcases hk with keq | ktl
            · subst keq
              simpa using hdup
            · have h2 := ihseen k ktl
              simp [List.contains_cons] at h2
              simpa using h2.2

/-- Counterexample to C8: a custom header whose key does not start with
`X-` is not rejected — `validate_custom_headers` silently renames
`Priority` to `X-Priority` and accepts the submission. -/
theorem custom_header_without_x_not_rejected :
    validate_custom_headers 10 [{ key := "Priority", value := "high" }]
      = .ok [{ key := "X-Priority", value := "high" }] := by
  rfl

/-- C8 (amended): a key not starting with `X-` (case-insensitively) is not
rejected but silently prefixed with `X-`; whenever `validate_custom_headers`
accepts, the stored keys are exactly the normalised submitted keys, each has
upper-case prefix `X-` and not `X-FM-`, and the keys are pairwise distinct
(a normalised key starting with `X-FM-`, or duplicated, is rejected). -/
theorem validate_custom_headers_spec (max_headers : Nat) (hs l : List CustomHeader)
    (hok : validate_custom_headers max_headers hs = .ok l) :
    l.map CustomHeader.key = hs.map (fun h => normalize_key h.key)
    ∧ (∀ h2 ∈ l, starts_with (upper_str h2.key) "X-" = true
        ∧ starts_with (upper_str h2.key) "X-FM-" = false)
    ∧ (l.map CustomHeader.key).Nodup := by
  unfold validate_custom_headers at hok
  by_cases hemp : hs.isEmpty
  · rw [if_pos hemp] at hok
    injection hok with hok
    subst hok
    rw [List.isEmpty_iff] at hemp
    subst hemp
    simp
  · rw [if_neg hemp] at hok
    by_cases hlen : hs.length > max_headers
    · simp [hlen] at hok
    · rw [if_neg hlen] at hok
      obtain ⟨hmap, hfm, hnd, _⟩ := check_headers_ok_spec hs [] l hok
      refine ⟨hmap, ?_, hnd⟩
      intro h2 hh2
      refine ⟨?_, hfm h2 hh2⟩
      have hkmem : h2.key ∈ hs.map (fun h => normalize_key h.key) := by
        rw [← hmap]
        exact List.mem_map_of_mem _ hh2
      obtain ⟨h0, _, hkey⟩ := List.mem_map.mp hkmem
      rw [← hkey]
      exact normalize_key_starts_x h0.key

/-- Witness for the amended C8 at a concrete header list containing a bare
key, an `X-`-prefixed key and checking the resulting normalised keys. -/
theorem validate_custom_headers_spec_witness :
    ([{ key := "X-Priority", value := "high" }] : List CustomHeader).map
        CustomHeader.key
      = ([{ key := "Priority", value := "high" }] : List CustomHeader).map
          (fun h => normalize_key h.key) :=
  (validate_custom_headers_spec 10 [{ key := "Priority", value := "high" }]
      [{ key := "X-Priority", value := "high" }] (by rfl)).1

/-- Modelled from the spec: the repository's `mail.config.constants` module
is not part of the source snapshot; the spec names the outbound broker queue
`OUTGOING_MAIL_QUEUE`, and only its identity (not its value) matters to the
transfer path. -/
def OUTGOING_MAIL_QUEUE : String := "OUTGOING_MAIL_QUEUE"

/-- One observable step of the transfer workers: either a status write to
`Outgoing Mail` rows (with the error log it sets and whether the write is
committed at once) or a broker publish of a mail at a priority. A `publish`
event records the publish attempt; whether it raised is the
`publish_exception` parameter of the trace functions. -/
inductive TransferEvent where
  | db_write (status : String) (error_log : Option String) (commit : Bool)
  | publish (queue : String) (outgoing_mail : String) (priority : Nat)
  deriving Repr, DecidableEq

/-- The fields of an `Outgoing Mail` document read by `on_submit` and
`transfer_now`. -/
structure OutgoingMailDoc where
  name : String
  docstatus : Nat
  status : String
  via_api : Bool := false
  is_newsletter : Bool := false
  submitted_after : Int := 0
  deriving Repr, DecidableEq

/-- The guard in `OutgoingMail.on_submit` that enqueues the immediate
transfer: `via_api and not is_newsletter and submitted_after <= 5`. -/
def on_submit_transfers_now (m : OutgoingMailDoc) : Bool :=
  m.via_api && !m.is_newsletter && decide (m.submitted_after ≤ 5)

/-- `OutgoingMail.transfer_now` (without the underspecified `force_transfer`
flag): the reloaded document is ignored unless submitted and `Pending`; the
flip to `Transferring` is committed, the mail is published to
`OUTGOING_MAIL_QUEUE` at priority 3, and on success the status becomes
`Transferred`; a raised publish (`publish_exception = some tb`) overwrites
the status with `Failed` and stores the traceback in `error_log`. -/
def transfer_now (m : OutgoingMailDoc) (publish_exception : Option String) :
    List TransferEvent :=
  if m.docstatus = 1 ∧ m.status = "Pending" then
    TransferEvent.db_write "Transferring" none true ::
      match publish_exception with
      | none =>
        [TransferEvent.publish OUTGOING_MAIL_QUEUE m.name 3,
         TransferEvent.db_write "Transferred" none true]
      | some tb =>
        [TransferEvent.publish OUTGOING_MAIL_QUEUE m.name 3,
         TransferEvent.db_write "Failed" (some tb) true]
  else []

/-- One row selected by `get_mails_to_transfer` inside `transfer_mails`. -/
structure BatchMail where
  name : String
  is_newsletter : Bool := false
  domain_name : String := ""
  deriving Repr, DecidableEq

/-- The priority computation of the batch loop in `transfer_mails`:
`priority = 1`, overridden to 0 for a newsletter, else to 2 when the mail's
domain is the root domain. -/
def batch_priority (root_domain_name : String) (m : BatchMail) : Nat :=
  if m.is_newsletter then 0
  else if m.domain_name = root_domain_name then 2
  else 1

/-- One iteration of the batch loop of `transfer_mails`: the selected
`Pending` mails are flipped to `Transferring` (clearing `error_log`) in one
committed UPDATE, each mail is published at its priority, then the batch is
bulk-updated to `Transferred`; when the publish of the `k`-th mail raises
(`publish_exception = some (k, tb)`), the mails published so far are the
first `k` and the batch is bulk-updated to `Failed` with the traceback
(that UPDATE is not explicitly committed). -/
def transfer_mails_iteration (root_domain_name : String) (mails : List BatchMail)
    (publish_exception : Option (Nat × String)) : List TransferEvent :=
  if mails = [] then []
  else
    TransferEvent.db_write "Transferring" none true ::
      match publish_exception with
      | none =>
        (mails.map fun m =>
          TransferEvent.publish OUTGOING_MAIL_QUEUE m.name
            (batch_priority root_domain_name m))
          ++ [TransferEvent.db_write "Transferred" none false]
      | some (k, tb) =>
        ((mails.take k).map fun m =>
          TransferEvent.publish OUTGOING_MAIL_QUEUE m.name
            (batch_priority root_domain_name m))
          ++ [TransferEvent.db_write "Failed" (some tb) false]

/-- C4: both the immediate transfer and the batch iteration first write
`Transferring` with an immediate commit (so before any publish), a raised
publish ends the trace with a `Failed` write carrying the traceback, and
neither path ever writes status `Pending`. -/
theorem transfer_status_discipline (m : OutgoingMailDoc) (pe : Option String)
    (root : String) (mails : List BatchMail) (bpe : Option (Nat × String))
    (hdoc : m.docstatus = 1) (hst : m.status = "Pending") (hmails : mails ≠ []) :
    (transfer_now m pe).head? = some (.db_write "Transferring" none true)
    ∧ (∀ tb, pe = some tb →
        (transfer_now m pe).getLast? = some (.db_write "Failed" (some tb) true))
    ∧ (∀ el c, TransferEvent.db_write "Pending" el c ∉ transfer_now m pe)
    ∧ (transfer_mails_iteration root mails bpe).head?
        = some (.db_write "Transferring" none true)
    ∧ (∀ k tb, bpe = some (k, tb) →
        (transfer_mails_iteration root mails bpe).getLast?
          = some (.db_write "Failed" (some tb) false))
    ∧ (∀ el c,
        TransferEvent.db_write "Pending" el c ∉ transfer_mails_iteration root mails bpe) := by
  have hg : m.docstatus = 1 ∧ m.status = "Pending" := ⟨hdoc, hst⟩
  refine ⟨?_, ?_, ?_, ?_, ?_, ?_⟩
  · unfold transfer_now
    rw [if_pos hg]
    cases pe <;> rfl
  · intro tb htb
    subst htb
    unfold transfer_now
    rw [if_pos hg]
    rfl
  · intro el c hmem
    unfold transfer_now at hmem
    rw [if_pos hg] at hmem
    cases pe <;> simp at hmem
  · unfold transfer_mails_iteration
    rw [if_neg hmails]
    cases bpe <;> rfl
  · intro k tb htb
    subst htb
    unfold transfer_mails_iteration
    rw [if_neg hmails, ← List.cons_append]
    exact List.getLast?_concat _
  · intro el c hmem
    unfold transfer_mails_iteration at hmem
    rw [if_neg hmails] at hmem
    rcases bpe with _ | ⟨k, tb⟩
    · simp at hmem
    · rcases List.mem_cons.mp hmem with h | h
      · exact absurd h (by simp)
      · rcases List.mem_append.mp h with h2 | h2
        · obtain ⟨bm, hbm, heq⟩ := List.mem_map.mp h2
          exact absurd heq (by simp)
        · simp at h2

/-- Witness for C4 at a concrete pending mail whose publish raises, and a
one-mail batch whose first publish raises. -/
theorem transfer_status_discipline_witness :
    (transfer_now { name := "m1", docstatus := 1, status := "Pending" }
        (some "tb")).head? = some (.db_write "Transferring" none true) :=
  (transfer_status_discipline { name := "m1", docstatus := 1, status := "Pending" }
      (some "tb") "root.test" [{ name := "m2" }] (some (0, "tb")) rfl rfl
      (by simp)).1

/-- C9: when the `on_submit` guard for the immediate path holds (`via_api=1`,
`is_newsletter=0`, `submitted_after ≤ 5`), every publish of `transfer_now`
goes to `OUTGOING_MAIL_QUEUE` at priority 3; and every publish of the batch
worker carries the priority 0 for a newsletter, else 2 for a root-domain
mail, else 1. -/
theorem transfer_publish_priorities (m : OutgoingMailDoc) (pe : Option String)
    (root : String) (mails : List BatchMail) (bpe : Option (Nat × String))
    (h_immediate : on_submit_transfers_now m = true) :
    (∀ q n p, TransferEvent.publish q n p ∈ transfer_now m pe →
        q = OUTGOING_MAIL_QUEUE ∧ n = m.name ∧ p = 3)
    ∧ (∀ q n p, TransferEvent.publish q n p ∈ transfer_mails_iteration root mails bpe →
        q = OUTGOING_MAIL_QUEUE ∧ ∃ bm ∈ mails, n = bm.name
          ∧ p = (if bm.is_newsletter then 0
                 else if bm.domain_name = root then 2 else 1)) := by
  constructor
  · intro q n p hmem
    unfold transfer_now at hmem
    by_cases hg : m.docstatus = 1 ∧ m.status = "Pending"
    · rw [if_pos hg] at hmem
      cases pe <;> simpa using hmem
    · rw [if_neg hg] at hmem
      simp at hmem
  · intro q n p hmem
    unfold transfer_mails_iteration at hmem
    by_cases hmails : mails = []
    · rw [if_pos hmails] at hmem
      simp at hmem
    · rw [if_neg hmails] at hmem
      rcases bpe with _ | ⟨k, tb⟩
      · rcases List.mem_cons.mp hmem with h | h
        · exact absurd h (by simp)
        · rcases List.mem_append.mp h with h2 | h2
          · obtain ⟨bm, hbm, heq⟩ := List.mem_map.mp h2
            injection heq with a b c
            exact ⟨a.symm, bm, hbm, b.symm, by rw [← c]; rfl⟩
          · exact absurd h2 (by simp)
      · rcases List.mem_cons.mp hmem with h | h
        · exact absurd h (by simp)
        · rcases List.mem_append.mp h with h2 | h2
          · obtain ⟨bm, hbm, heq⟩ := List.mem_map.mp h2
            injection heq with a b c
            exact ⟨a.symm, bm, List.mem_of_mem_take hbm, b.symm, by rw [← c]; rfl⟩
          · exact absurd h2 (by simp)

/-- Witness for C9 at a concrete immediate mail and the concrete publish
event found in its trace. -/
theorem transfer_publish_priorities_witness :
    OUTGOING_MAIL_QUEUE = OUTGOING_MAIL_QUEUE ∧ "m1" = "m1" ∧ (3 : Nat) = 3 :=
  (transfer_publish_priorities
      { name := "m1", docstatus := 1, status := "Pending", via_api := true } none
      "root.test" [{ name := "m2", is_newsletter := true }] none (by decide)).1
    OUTGOING_MAIL_QUEUE "m1" 3 (by decide)

/-- A `Mail Alias` document: the alias address (source field `alias`, a
reserved word here), its enabled flag and its destination mailboxes (the
`Mail Alias Mailbox` child rows). -/
structure MailAlias where
  alias_name : String
  enabled : Bool
  mailboxes : List String
  deriving Repr, DecidableEq

/-- The rejection message of `log_rejected_mail` inside
`get_incoming_mails`. -/
def rejection_message : String :=
  "550 5.4.1 Recipient address rejected: Access denied."

/-- An observable outcome of the intake worker: either an accepted
`Incoming Mail` created for a destination mailbox, or a rejected
`Incoming Mail` (`is_rejected=1`) carrying the rejection message. -/
inductive IntakeAction where
  | accept (mailbox : String)
  | reject (receiver : String) (message : String)
  deriving Repr, DecidableEq

/-- `str.split(sep)` over the characters of a string. -/
def split_at_char (c : Char) : List Char → List (List Char)
  | [] => [[]]
  | x :: xs =>
    match split_at_char c xs with
    | [] => [[]]
    | grp :: rest => if x = c then [] :: grp :: rest else (x :: grp) :: rest

/-- `receiver.split("@")[1]` of `process_incoming_mail`. -/
def domain_part (receiver : String) : String :=
  ⟨(split_at_char '@' receiver.data).getD 1 []⟩

/-- `process_incoming_mail` inside `get_incoming_mails`: a message whose
sender or receiver fails address validation is dropped; a receiver on an
inactive domain is rejected; a receiver that is a known `Mail Alias` gets
one accepted `Incoming Mail` per active destination mailbox when the alias
is enabled — and then, because the alias branch does not return, also falls
through to `log_rejected_mail`; a receiver that is an active mailbox is
accepted and returns; anything else is rejected. The database lookups
`is_active_domain`, `is_mail_alias` (existence, via `alias_lookup`) and
`is_active_mailbox` are passed as predicates. -/
def process_incoming_mail (valid_email : String → Bool)
    (is_active_domain : String → Bool) (alias_lookup : String → Option MailAlias)
    (is_active_mailbox : String → Bool) (sender receiver : String) :
    List IntakeAction :=
  if !(valid_email sender) || !(valid_email receiver) then []
  else if !(is_active_domain (domain_part receiver)) then
    [IntakeAction.reject receiver rejection_message]
  else
    match alias_lookup receiver with
    | some mail_alias =>
      (if mail_alias.enabled then
        (mail_alias.mailboxes.filter is_active_mailbox).map IntakeAction.accept
      else [])
        ++ [IntakeAction.reject receiver rejection_message]
    | none =>
      if is_active_mailbox receiver then [IntakeAction.accept receiver]
      else [IntakeAction.reject receiver rejection_message]

/-- C2 evaluated at the failing input: a receiver matching an enabled alias
with two active destination mailboxes on an enabled domain yields the two
accepted `Incoming Mail` rows of the fan-out AND a rejected `Incoming Mail`
with the 550 message — the rejection path is taken although the receiver
matched an enabled alias, because the alias branch lacks a `return`. -/
theorem alias_fanout_also_rejects :
    process_incoming_mail (fun _ => true) (fun d => d == "example.test")
      (fun r =>
        if r == "team@example.test" then
          some { alias_name := "team@example.test", enabled := true,
                 mailboxes := ["a@example.test", "b@example.test"] }
        else none)
      (fun m => m == "a@example.test" || m == "b@example.test")
      "alice@peer.test" "team@example.test"
    = [IntakeAction.accept "a@example.test", IntakeAction.accept "b@example.test",
       IntakeAction.reject "team@example.test" rejection_message] := by
  rfl

/-- A row of the `Incoming Mail` table as read by the pull APIs. -/
structure IncomingMailRow where
  id : String
  receiver : String
  docstatus : Nat
  processed_at : Nat
  message : String := ""
  deriving Repr, DecidableEq

/-- A `Mail Sync History` document for one `(source, user, mailbox)`. -/
structure MailSyncHistory where
  last_synced_at : Option Nat := none
  last_synced_mail : Option String := none
  deriving Repr, DecidableEq

/-- The result dict of `get_incoming_mails` / `get_raw_incoming_mails`. -/
structure PullResult where
  mails : List IncomingMailRow
  last_synced_at : Nat
  last_synced_mail : Option String
  deriving Repr, DecidableEq

/-- `ORDER BY processed_at` comparison. -/
def row_le (a b : IncomingMailRow) : Prop := a.processed_at ≤ b.processed_at

instance : DecidableRel row_le := fun _ _ => Nat.decLe _ _

instance : IsTotal IncomingMailRow row_le := ⟨fun _ _ => Nat.le_total _ _⟩

instance : IsTrans IncomingMailRow row_le := ⟨fun _ _ _ => Nat.le_trans⟩

/-- The WHERE clause of the pull queries: `docstatus = 1`, `receiver =
mailbox`, and `processed_at > cursor` only when a cursor is present. -/
def pull_filter (mailbox : String) (cursor : Option Nat) (m : IncomingMailRow) : Bool :=
  m.docstatus == 1 && m.receiver == mailbox &&
    (match cursor with
     | some c => decide (c < m.processed_at)
     | none => true)

/-- `get_raw_incoming_mails`: filter, order by `processed_at`, truncate to
`limit`; the new cursor is the last row's `processed_at` (or `now()` when
nothing matched) and `last_synced_mail` is the last row's id (or absent). -/
def get_raw_incoming_mails (db : List IncomingMailRow) (mailbox : String)
    (limit : Nat) (last_synced_at : Option Nat) (now : Nat) : PullResult :=
  let data := (List.insertionSort row_le
    (db.filter (pull_filter mailbox last_synced_at))).take limit
  { mails := data
    last_synced_at :=
      match data.getLast? with
      | some m => m.processed_at
      | none => now
    last_synced_mail := data.getLast?.map IncomingMailRow.id }

/-- `validate_max_sync_limit`: throws when the requested limit exceeds the
configured `max_sync_via_api`. -/
def validate_max_sync_limit (max_sync_via_api : Nat) (limit : Nat) :
    Except String Unit :=
  if limit > max_sync_via_api then
    .error ("Cannot fetch more than " ++ toString max_sync_via_api
      ++ " emails at a time.")
  else .ok ()

/-- `update_mail_sync_history`: stores the new cursor and, when present, the
last synced mail id. -/
def update_mail_sync_history (h : MailSyncHistory) (last_synced_at : Nat)
    (last_synced_mail : Option String) : MailSyncHistory :=
  { last_synced_at := some last_synced_at
    last_synced_mail :=
      match last_synced_mail with
      | some m => some m
      | none => h.last_synced_mail }

/-- The effective cursor of `pull`: the `last_synced_at` argument when
given, otherwise the stored history cursor
(`last_synced_at or sync_history.last_synced_at`). -/
def effective_cursor (arg : Option Nat) (h : MailSyncHistory) : Option Nat :=
  match arg with
  | some c => some c
  | none => h.last_synced_at

/-- `mail.api.inbound.pull` (equally `pull_raw`): validate the limit, read
the mails after the effective cursor, persist the new cursor. -/
def pull (max_sync_via_api : Nat) (db : List IncomingMailRow) (h : MailSyncHistory)
    (mailbox : String) (limit : Nat) (last_synced_at : Option Nat) (now : Nat) :
    Except String (PullResult × MailSyncHistory) :=
  match validate_max_sync_limit max_sync_via_api limit with
  | .error e => .error e
  | .ok _ =>
    let result := get_raw_incoming_mails db mailbox limit
      (effective_cursor last_synced_at h) now
    .ok (result, update_mail_sync_history h result.last_synced_at
      result.last_synced_mail)

theorem pull_filter_iff (mailbox : String) (cursor : Option Nat)
    (m : IncomingMailRow) :
    pull_filter mailbox cursor m = true
      ↔ m.docstatus = 1 ∧ m.receiver = mailbox
        ∧ (∀ c, cursor = some c → c < m.processed_at) := by
  cases cursor <;> simp [pull_filter, and_assoc]

theorem get_raw_incoming_mails_spec (db : List IncomingMailRow) (mailbox : String)
    (limit : Nat) (cursor : Option Nat) (now : Nat) :
    (∀ m ∈ (get_raw_incoming_mails db mailbox limit cursor now).mails,
        m ∈ db ∧ m.docstatus = 1 ∧ m.receiver = mailbox
          ∧ (∀ c, cursor = some c → c < m.processed_at))
    ∧ List.Sorted row_le (get_raw_incoming_mails db mailbox limit cursor now).mails
    ∧ (get_raw_incoming_mails db mailbox limit cursor now).mails.length ≤ limit
    ∧ ((get_raw_incoming_mails db mailbox limit cursor now).mails.length < limit →
        ∀ m ∈ db, m.docstatus = 1 → m.receiver = mailbox →
          (∀ c, cursor = some c → c < m.processed_at) →
          m ∈ (get_raw_incoming_mails db mailbox limit cursor now).mails)
    ∧ (∀ last, (get_raw_incoming_mails db mailbox limit cursor now).mails.getLast?
          = some last →
        (get_raw_incoming_mails db mailbox limit cursor now).last_synced_at
            = last.processed_at
          ∧ (get_raw_incoming_mails db mailbox limit cursor now).last_synced_mail
            = some last.id)
    ∧ ((get_raw_incoming_mails db mailbox limit cursor now).mails = [] →
        (get_raw_incoming_mails db mailbox limit cursor now).last_synced_at = now
          ∧ (get_raw_incoming_mails db mailbox limit cursor now).last_synced_mail
            = none) := by
  simp only [get_raw_incoming_mails]
  refine ⟨?_, ?_, ?_, ?_, ?_, ?_⟩
  · intro m hm
    have hm2 := List.mem_of_mem_take hm
    rw [(List.perm_insertionSort row_le _).mem_iff] at hm2
    obtain ⟨hdb, hp⟩ := List.mem_filter.mp hm2
    exact ⟨hdb, (pull_filter_iff mailbox cursor m).mp hp⟩
  · exact (List.sorted_insertionSort row_le _).sublist (List.take_sublist _ _)
  · exact List.length_take_le _ _
  · intro hshort m hdb h1 h2 h3
    have hsortlen :
        (List.insertionSort row_le (db.filter (pull_filter mailbox cursor))).length
          < limit := by
      rw [List.length_take] at hshort
      omega
    rw [List.take_of_length_le (Nat.le_of_lt hsortlen)]
    rw [(List.perm_insertionSort row_le _).mem_iff]
    exact List.mem_filter.mpr ⟨hdb, (pull_filter_iff mailbox cursor m).mpr ⟨h1, h2, h3⟩⟩
  · intro last hlast
    rw [hlast]
    exact ⟨rfl, rfl⟩
  · intro hnil
    rw [hnil]
    exact ⟨rfl, rfl⟩

/-- C5: for `pull` with a limit within bounds, the returned mails are rows of
the table with `docstatus=1`, the requested receiver and `processed_at`
strictly beyond the effective cursor, ordered by `processed_at` and truncated
to `limit` (complete whenever the limit is not reached); afterwards the
stored cursor is the last returned mail's `processed_at` and
`last_synced_mail` its id, or the cursor is `now` when nothing is
returned. -/
theorem pull_cursor_spec (max_sync : Nat) (db : List IncomingMailRow)
    (h : MailSyncHistory) (mailbox : String) (limit : Nat) (ls : Option Nat)
    (now : Nat) (hlim : limit ≤ max_sync) :
    ∃ r h2, pull max_sync db h mailbox limit ls now = .ok (r, h2)
      ∧ (∀ m ∈ r.mails, m ∈ db ∧ m.docstatus = 1 ∧ m.receiver = mailbox
          ∧ (∀ c, effective_cursor ls h = some c → c < m.processed_at))
      ∧ List.Sorted row_le r.mails
      ∧ r.mails.length ≤ limit
      ∧ (r.mails.length < limit →
          ∀ m ∈ db, m.docstatus = 1 → m.receiver = mailbox →
            (∀ c, effective_cursor ls h = some c → c < m.processed_at) →
            m ∈ r.mails)
      ∧ (∀ last, r.mails.getLast? = some last →
          h2.last_synced_at = some last.processed_at
            ∧ h2.last_synced_mail = some last.id)
      ∧ (r.mails = [] → h2.last_synced_at = some now
          ∧ h2.last_synced_mail = h.last_synced_mail) := by
  have hval : validate_max_sync_limit max_sync limit = .ok () := by
    unfold validate_max_sync_limit
    rw [if_neg (by omega)]
  refine ⟨get_raw_incoming_mails db mailbox limit (effective_cursor ls h) now,
    update_mail_sync_history h
      (get_raw_incoming_mails db mailbox limit (effective_cursor ls h) now).last_synced_at
      (get_raw_incoming_mails db mailbox limit (effective_cursor ls h) now).last_synced_mail,
    ?_, ?_, ?_, ?_, ?_, ?_, ?_⟩
  · unfold pull
    rw [hval]
  · exact (get_raw_incoming_mails_spec db mailbox limit (effective_cursor ls h) now).1
  · exact (get_raw_incoming_mails_spec db mailbox limit (effective_cursor ls h) now).2.1
  · exact (get_raw_incoming_mails_spec db mailbox limit (effective_cursor ls h) now).2.2.1
  · exact (get_raw_incoming_mails_spec db mailbox limit (effective_cursor ls h) now).2.2.2.1
  · intro last hlast
    obtain ⟨hat, hmail⟩ :=
      (get_raw_incoming_mails_spec db mailbox limit (effective_cursor ls h) now).2.2.2.2.1
        last hlast
    constructor
    · simp [update_mail_sync_history, hat]
    · simp [update_mail_sync_history, hmail]
  · intro hnil
    obtain ⟨hat, hmail⟩ :=
      (get_raw_incoming_mails_spec db mailbox limit (effective_cursor ls h) now).2.2.2.2.2
        hnil
    constructor
    · simp [update_mail_sync_history, hat]
    · simp [update_mail_sync_history, hmail]

/-- Witness for C5 at a concrete one-row table and an in-bounds limit. -/
theorem pull_cursor_spec_witness :
    ∃ r h2, pull 10 [{ id := "i1", receiver := "m", docstatus := 1, processed_at := 3 }]
        { last_synced_at := none, last_synced_mail := none } "m" 5 none 7
      = .ok (r, h2) := by
  obtain ⟨r, h2, heq, _⟩ := pull_cursor_spec 10
    [{ id := "i1", receiver := "m", docstatus := 1, processed_at := 3 }]
    { last_synced_at := none, last_synced_mail := none } "m" 5 none 7 (by decide)
  exact ⟨r, h2, heq⟩

/-- Counterexample to C6: a `pull` whose limit exceeds `max_sync_via_api` is
not clamped to the maximum — it fails with a validation error. -/
theorem pull_over_limit_rejected :
    pull 100 [] { last_synced_at := none, last_synced_mail := none } "m" 101 none 0
      = .error "Cannot fetch more than 100 emails at a time." := by
  rfl

/-- C6 (amended): a `pull`/`pull_raw` limit exceeding `max_sync_via_api` is
rejected with the "Cannot fetch more than …" error instead of being clamped;
a limit within the bound passes the validation. -/
theorem pull_limit_not_clamped (max_sync : Nat) (db : List IncomingMailRow)
    (h : MailSyncHistory) (mailbox : String) (limit : Nat) (ls : Option Nat)
    (now : Nat) (hover : limit > max_sync) :
    pull max_sync db h mailbox limit ls now
      = .error ("Cannot fetch more than " ++ toString max_sync
          ++ " emails at a time.")
    ∧ ∀ limit2, limit2 ≤ max_sync →
        validate_max_sync_limit max_sync limit2 = .ok () := by
  constructor
  · unfold pull validate_max_sync_limit
    rw [if_pos hover]
  · intro limit2 hle
    unfold validate_max_sync_limit
    rw [if_neg (by omega)]

/-- Witness for the amended C6 with limit 6 against a maximum of 5. -/
theorem pull_limit_not_clamped_witness :
    pull 5 [] { last_synced_at := none, last_synced_mail := none } "m" 6 none 0
      = .error ("Cannot fetch more than " ++ toString 5 ++ " emails at a time.") :=
  (pull_limit_not_clamped 5 [] { last_synced_at := none, last_synced_mail := none }
      "m" 6 none 0 (by decide)).1

/-- The tracking columns of an `Outgoing Mail` row touched by
`mail.api.track.open`. -/
structure TrackedMail where
  tracking_id : String
  track : Bool := false
  docstatus : Nat := 0
  first_opened_at : Option Nat := none
  last_opened_at : Option Nat := none
  open_count : Nat := 0
  last_opened_from_ip : Option String := none
  deriving Repr, DecidableEq

/-- The SET clauses of the single UPDATE in `mail.api.track.open`, applied
to one matching row: `first_opened_at` keeps its value unless NULL (the SQL
CASE), `last_opened_at` becomes now, `open_count` is incremented and the
requester IP recorded. -/
def track_open_row (id : String) (now : Nat) (ip : String) (m : TrackedMail) :
    TrackedMail :=
  if m.track && m.docstatus == 1 && m.tracking_id == id then
    { m with
      first_opened_at := some (m.first_opened_at.getD now)
      last_opened_at := some now
      open_count := m.open_count + 1
      last_opened_from_ip := some ip }
  else m

/-- `mail.api.track.open`: one SQL UPDATE over the whole `Outgoing Mail`
table, touching exactly the rows with `track=1`, `docstatus=1` and the given
tracking id. -/
def track_open (db : List TrackedMail) (id : String) (now : Nat) (ip : String) :
    List TrackedMail :=
  db.map (track_open_row id now ip)

/-- N successive calls of `/track/open?id=<id>` at the given times. -/
def track_open_calls (db : List TrackedMail) (id : String) (times : List Nat)
    (ip : String) : List TrackedMail :=
  times.foldl (fun d t => track_open d id t ip) db

theorem track_open_row_matches (id : String) (now : Nat) (ip : String)
    (m : TrackedMail)
    (hm : (m.track && m.docstatus == 1 && m.tracking_id == id) = true) :
    ((track_open_row id now ip m).track && (track_open_row id now ip m).docstatus == 1
        && (track_open_row id now ip m).tracking_id == id) = true := by
  simp only [track_open_row, hm, if_true]

theorem track_row_fold (id : String) (ip : String) (t : Nat) (ts : List Nat) :
    ∀ m : TrackedMail, (m.track && m.docstatus == 1 && m.tracking_id == id) = true →
      ((t :: ts).foldl (fun acc x => track_open_row id x ip acc) m).open_count
          = m.open_count + (t :: ts).length
      ∧ ((t :: ts).foldl (fun acc x => track_open_row id x ip acc) m).first_opened_at
          = some (m.first_opened_at.getD t)
      ∧ ((t :: ts).foldl (fun acc x => track_open_row id x ip acc) m).last_opened_at
          = some ((t :: ts).getLast (by simp)) := by
  induction ts generalizing t with
  | nil =>
    intro m hm
    simp only [Bool.and_eq_true, beq_iff_eq] at hm
    simp [track_open_row, hm]
  | cons t2 ts2 ih =>
    intro m hm
    have hmP : (m.track = true ∧ m.docstatus = 1) ∧ m.tracking_id = id := by
      simpa using hm
    have hstep : (t :: t2 :: ts2).foldl (fun acc x => track_open_row id x ip acc) m
        = (t2 :: ts2).foldl (fun acc x => track_open_row id x ip acc)
            (track_open_row id t ip m) := by
      simp [List.foldl_cons]
    obtain ⟨hcount, hfirst, hlast⟩ := ih t2 (track_open_row id t ip m)
      (track_open_row_matches id t ip m hm)
    rw [hstep]
    refine ⟨?_, ?_, ?_⟩
    · rw [hcount]
      have hrowc : (track_open_row id t ip m).open_count = m.open_count + 1 := by
        simp [track_open_row, hmP]
      rw [hrowc]
      simp
      omega
    · rw [hfirst]
      have hrowf : (track_open_row id t ip m).first_opened_at
          = some (m.first_opened_at.getD t) := by
        simp [track_open_row, hmP]
      rw [hrowf]
      simp
    · rw [hlast]
      exact congrArg some (List.getLast_cons (by simp : (t2 :: ts2) ≠ [])).symm

/-- C7: N ≥ 1 calls of `GET /track/open?id=<id>` each perform the whole
update as one statement over the table (`track_open_calls` is the N-fold
`track_open` map); on every row matching `track=1, docstatus=1,
tracking_id=id` they leave `open_count` increased by N (so `open_count = N`
from a fresh row), `first_opened_at` set by the first call and unchanged by
the later ones, and `last_opened_at` equal to the time of the last call;
non-matching rows are untouched. -/
theorem track_open_spec (db : List TrackedMail) (id : String) (ip : String)
    (times : List Nat) (htimes : times ≠ []) :
    track_open_calls db id times ip
      = db.map (fun m => times.foldl (fun acc t => track_open_row id t ip acc) m)
    ∧ (∀ m : TrackedMail, (m.track && m.docstatus == 1 && m.tracking_id == id) = true →
        (times.foldl (fun acc t => track_open_row id t ip acc) m).open_count
            = m.open_count + times.length
        ∧ (times.foldl (fun acc t => track_open_row id t ip acc) m).first_opened_at
            = some (m.first_opened_at.getD (times.head htimes))
        ∧ (times.foldl (fun acc t => track_open_row id t ip acc) m).last_opened_at
            = some (times.getLast htimes))
    ∧ (∀ m : TrackedMail, (m.track && m.docstatus == 1 && m.tracking_id == id) = false →
        times.foldl (fun acc t => track_open_row id t ip acc) m = m) := by
  refine ⟨?_, ?_, ?_⟩
  · clear htimes
    induction times generalizing db with
    | nil => simp [track_open_calls]
    | cons t ts ih =>
      rw [track_open_calls, List.foldl_cons, ← track_open_calls, ih]
      unfold track_open
      rw [List.map_map]
      simp [Function.comp, List.foldl_cons]
  · intro m hm
    cases times with
    | nil => exact absurd rfl htimes
    | cons t ts => exact track_row_fold id ip t ts m hm
  · intro m hm
    clear htimes
    induction times with
    | nil => rfl
    | cons t ts ih =>
      rw [List.foldl_cons]
      have hrow : track_open_row id t ip m = m := by
        simp [track_open_row, hm]
      rw [hrow]
      exact ih

/-- Witness for C7: two opens at times 4 and 9 on a fresh tracked mail leave
its open count at 2. -/
theorem track_open_spec_witness :
    (([4, 9] : List Nat).foldl
        (fun acc t => track_open_row "tid" t "ip1" acc)
        { tracking_id := "tid", track := true, docstatus := 1 }).open_count
      = ({ tracking_id := "tid", track := true, docstatus := 1 } : TrackedMail).open_count
        + ([4, 9] : List Nat).length :=
  ((track_open_spec [] "tid" "ip1" [4, 9] (by decide)).2.1
    { tracking_id := "tid", track := true, docstatus := 1 } (by decide)).1

end FrappeMail
